import Mathlib

/-!
Verification of the state/data logic of the life-goals dashboard
(src/workspace/life-goals-dashboard/src/App.tsx).

The goal record, the persistence load path, the derived view computation
and every mutation handler are embedded as pure Lean functions; external
collaborators (uuid generation, `Date.now()`, ISO date normalisation,
`JSON.parse`, deadline parsing) are passed in as explicit parameters.
-/

namespace LifeGoals

/-- The `Priority` union type: Low | Medium | High. -/
inductive Priority where
  | low
  | medium
  | high
deriving DecidableEq, Repr

/-- The `Goal` record (interface Goal in App.tsx).  JavaScript numbers that
the code only ever holds integral values in are modelled as `Int`;
`completedAt?: number` is an `Option Int`. -/
structure Goal where
  id : String
  title : String
  description : String
  deadline : String
  priority : Priority
  steps : Int
  completedSteps : Int
  completed : Bool
  createdAt : Int
  completedAt : Option Int
deriving DecidableEq, Repr

/-- FilterKey = all | active | completed. -/
inductive FilterKey where
  | all
  | active
  | completed
deriving DecidableEq, Repr

/-- SortKey = created-desc | deadline-asc | deadline-desc | priority-desc | priority-asc. -/
inductive SortKey where
  | createdDesc
  | deadlineAsc
  | deadlineDesc
  | priorityDesc
  | priorityAsc
deriving DecidableEq, Repr

/-- `priorityOrder`: High -> 3, Medium -> 2, Low -> 1. -/
def priorityOrder : Priority → Nat
  | .high => 3
  | .medium => 2
  | .low => 1

/-- Outcome of `JSON.parse` as far as `loadGoals` inspects it: either an
array (cast unchecked to `Goal[]` by the code) or some non-array value. -/
inductive JsValue where
  | arr (elems : List Goal)
  | notArray
deriving DecidableEq, Repr

/-- `loadGoals`: reads the raw string stored under the fixed key
(`none` = key absent; the code tests `!raw`, which is also true for the
empty string), runs `JSON.parse` (`parse s = none` models a parse throw,
caught by the surrounding try/catch), and keeps the parsed value only if
`Array.isArray` holds. -/
def loadGoals (parse : String → Option JsValue) (raw : Option String) : List Goal :=
  match raw with
  | none => []
  | some s =>
      if s = "" then []
      else
        match parse s with
        | none => []
        | some (JsValue.arr xs) => xs
        | some JsValue.notArray => []

/-- JavaScript `Math.round`: round half toward positive infinity,
`Math.round x = Math.floor (x + 0.5)`. -/
def jsRound (q : Rat) : Int := ⌊q + 1/2⌋

/-- The steps coercion in `GoalForm.handleSubmit`:
`Math.max(1, Math.round(Number(steps) || 1))`.  `Number(steps) || 1`
replaces a falsy numeric value (0) by 1. -/
def coerceSteps (q : Rat) : Int := max 1 (jsRound (if q = 0 then 1 else q))

/-- `GoalForm.handleSubmit`: builds the `Goal` handed to `onSave`.
`initial` is the goal being edited (or `none` when creating);
`isEditing = Boolean(initial && initial.id)`, so an `initial` with an
empty id is treated as a creation.  The form fields
(title/description/deadline/priority/steps) are the current input values;
`freshId` models `uuidv4()`, `now` models `Date.now()` and `toIso` models
`d => new Date(d).toISOString()`. -/
def submitGoal (toIso : String → String) (freshId : String) (now : Int)
    (initial : Option Goal) (title description deadline : String)
    (priority : Priority) (steps : Rat) : Goal :=
  match initial with
  | none =>
      { id := freshId
        title := title.trim
        description := description.trim
        deadline := toIso deadline
        priority := priority
        steps := coerceSteps steps
        completedSteps := 0
        completed := false
        createdAt := now
        completedAt := none }
  | some g =>
      { id := if g.id = "" then freshId else g.id
        title := title.trim
        description := description.trim
        deadline := toIso deadline
        priority := priority
        steps := coerceSteps steps
        completedSteps := g.completedSteps
        completed := g.completed
        createdAt := if g.id = "" then now else g.createdAt
        completedAt := g.completedAt }

/-- The by-id in-place replacement pattern shared by the mutation handlers:
`prev.map(g => (g.id === target ? updated : g))`. -/
def replaceById (i : String) (new : Goal) (l : List Goal) : List Goal :=
  l.map fun g => if g.id = i then new else g

/-- `handleSave`: if some existing goal has the submitted id, replace it
in place; otherwise prepend the goal to the front of the list. -/
def handleSave (goal : Goal) (prev : List Goal) : List Goal :=
  if prev.any (fun g => decide (g.id = goal.id)) then replaceById goal.id goal prev
  else goal :: prev

/-- `handleDelete`: after the `window.confirm` guard, removes every record
with the target id. -/
def handleDelete (goal : Goal) (confirmed : Bool) (prev : List Goal) : List Goal :=
  if confirmed then prev.filter (fun g => decide (g.id ≠ goal.id)) else prev

/-- The record update performed by `handleToggleComplete`:
`{ ...goal, completed: !goal.completed, completedAt: !goal.completed ? Date.now() : undefined }`. -/
def toggleGoal (g : Goal) (now : Int) : Goal :=
  { g with
    completed := !g.completed
    completedAt := if !g.completed then some now else none }

/-- The undo-related component state of `App`: the goal list, the
`undoOpen` flag that controls whether the toast (and its Undo button) is
rendered, `lastToggledRef` and whether a `setTimeout` is pending in
`undoTimerRef`. -/
structure AppState where
  goals : List Goal
  undoOpen : Bool
  lastToggled : Option Goal
  timerArmed : Bool
deriving DecidableEq, Repr

/-- `handleToggleComplete`: replaces the toggled record, remembers the
pre-toggle record in the single undo slot, opens the toast, and restarts
the 5-second timer (clearing any pending one). -/
def handleToggleComplete (s : AppState) (goal : Goal) (now : Int) : AppState :=
  { goals := replaceById goal.id (toggleGoal goal now) s.goals
    undoOpen := true
    lastToggled := some goal
    timerArmed := true }

/-- `handleUndo`: if an undo target is remembered, restore that exact
record by id, close the toast, clear the slot and cancel the timer;
otherwise do nothing. -/
def handleUndo (s : AppState) : AppState :=
  match s.lastToggled with
  | none => s
  | some last =>
      { goals := replaceById last.id last s.goals
        undoOpen := false
        lastToggled := none
        timerArmed := false }

/-- The 5-second timer firing: the callback is `() => setUndoOpen(false)`,
so only the toast closes; `lastToggledRef` and the goal list are untouched. -/
def undoTimerFire (s : AppState) : AppState :=
  { s with undoOpen := false, timerArmed := false }

/-- Undo as reachable through the UI: the `Toast` component returns
`null` when `open` is false, so the Undo button (and with it
`handleUndo`) is only reachable while `undoOpen` is true. -/
def uiUndo (s : AppState) : AppState :=
  if s.undoOpen then handleUndo s else s

/-- `handleIncrementStep`: no-op when completed or `completedSteps >= steps`,
otherwise replace the record with `completedSteps + 1`. -/
def handleIncrementStep (goal : Goal) (prev : List Goal) : List Goal :=
  if goal.completed then prev
  else if goal.completedSteps ≥ goal.steps then prev
  else replaceById goal.id { goal with completedSteps := goal.completedSteps + 1 } prev

/-- `handleDecrementStep`: no-op when completed or `completedSteps <= 0`,
otherwise replace the record with `completedSteps - 1`. -/
def handleDecrementStep (goal : Goal) (prev : List Goal) : List Goal :=
  if goal.completed then prev
  else if goal.completedSteps ≤ 0 then prev
  else replaceById goal.id { goal with completedSteps := goal.completedSteps - 1 } prev

/-- `filteredGoals` (the derived view): copy, filter by the selected
filter, then sort with the comparator of the selected sort key.
`parseTime` models `d => parseISO(d).getTime()`.  JavaScript
`Array.prototype.sort` is a stable sort ordered ascending by the
comparator, modelled by `List.mergeSort` with `le a b` iff the comparator
is nonpositive at `(a, b)`. -/
def filteredGoals (parseTime : String → Int) (goals : List Goal)
    (filter : FilterKey) (sortBy : SortKey) : List Goal :=
  let list := goals
  let list := if filter = FilterKey.active then list.filter (fun g => !g.completed) else list
  let list := if filter = FilterKey.completed then list.filter (fun g => g.completed) else list
  match sortBy with
  | .deadlineAsc =>
      list.mergeSort fun a b => decide (parseTime a.deadline ≤ parseTime b.deadline)
  | .deadlineDesc =>
      list.mergeSort fun a b => decide (parseTime b.deadline ≤ parseTime a.deadline)
  | .priorityDesc =>
      list.mergeSort fun a b => decide (priorityOrder b.priority ≤ priorityOrder a.priority)
  | .priorityAsc =>
      list.mergeSort fun a b => decide (priorityOrder a.priority ≤ priorityOrder b.priority)
  | .createdDesc =>
      list.mergeSort fun a b => decide (b.createdAt ≤ a.createdAt)

/-- The data-model invariant on the step counters. -/
def stepsInv (g : Goal) : Prop := 0 ≤ g.completedSteps ∧ g.completedSteps ≤ g.steps

instance (g : Goal) : Decidable (stepsInv g) :=
  inferInstanceAs (Decidable (0 ≤ g.completedSteps ∧ g.completedSteps ≤ g.steps))

/-- Frame property of a by-id update: same length (hence same relative
order of the untouched records) and every position holding a record with
a different id is unchanged. -/
def framedUpdate (i : String) (prev result : List Goal) : Prop :=
  result.length = prev.length ∧
  ∀ (k : Nat) (g : Goal), prev[k]? = some g → g.id ≠ i → result[k]? = some g

/-- A goal satisfying the step invariant, used as a concrete test vector. -/
def gDone : Goal :=
  { id := "a", title := "t", description := "", deadline := "2025-01-01"
    priority := Priority.high, steps := 2, completedSteps := 1
    completed := true, createdAt := 10, completedAt := some 11 }

/-- An incomplete goal used as a concrete test vector. -/
def gPend : Goal :=
  { id := "b", title := "u", description := "", deadline := "2025-02-01"
    priority := Priority.low, steps := 4, completedSteps := 0
    completed := false, createdAt := 20, completedAt := none }

/-- A goal with `completedSteps > steps` (reachable by editing `steps`
below the preserved `completedSteps`). -/
def gBad : Goal :=
  { id := "x", title := "t", description := "", deadline := "2025-01-01"
    priority := Priority.medium, steps := 1, completedSteps := 2
    completed := false, createdAt := 0, completedAt := none }

/-- A fully-stepped, not-yet-completed goal used as a concrete test vector. -/
def gFull : Goal :=
  { id := "a", title := "t", description := "", deadline := "2025-01-01"
    priority := Priority.medium, steps := 5, completedSteps := 5
    completed := false, createdAt := 0, completedAt := none }

/-- Initial app state holding a single incomplete goal. -/
def s0 : AppState :=
  { goals := [gPend], undoOpen := false, lastToggled := none, timerArmed := false }

/-- App state with an armed undo slot remembering `gPend`. -/
def s1 : AppState :=
  { goals := [gPend, gDone], undoOpen := true, lastToggled := some gPend, timerArmed := true }

/-- A concrete JSON-parse outcome function: only the text of an empty
array parses, everything else throws. -/
def parseW : String → Option JsValue :=
  fun t => if t = "[]" then some (JsValue.arr []) else none

-- Helper lemmas shared by several proofs.

theorem map_id_of_mem {l : List Goal} {f : Goal → Goal}
    (h : ∀ x ∈ l, f x = x) : l.map f = l := by
  induction l with
  | nil => rfl
  | cons a t ih =>
      simp only [List.map_cons, h a (List.mem_cons_self a t),
        ih fun x hx => h x (List.mem_cons_of_mem a hx)]

theorem mem_replaceById {x : Goal} {i : String} {new : Goal} {l : List Goal}
    (hx : x ∈ replaceById i new l) : x = new ∨ x ∈ l := by
  rcases List.mem_map.1 hx with ⟨g, hg, hfx⟩
  by_cases hid : g.id = i
  · left
    simpa [hid] using hfx.symm
  · right
    have : x = g := by simpa [hid] using hfx.symm
    exact this ▸ hg

theorem framedUpdate_refl (i : String) (l : List Goal) : framedUpdate i l l :=
  ⟨rfl, fun _ _ hg _ => hg⟩

theorem framedUpdate_replaceById (i : String) (new : Goal) (l : List Goal) :
    framedUpdate i l (replaceById i new l) := by
  refine ⟨by simp [replaceById], fun k g hg hne => ?_⟩
  simp [replaceById, List.getElem?_map, hg, hne]

-- Facts about the steps coercion.

theorem coerceSteps_ge_one (q : Rat) : 1 ≤ coerceSteps q :=
  le_max_left _ _

theorem coerceSteps_two : coerceSteps 2 = 2 := by
  unfold coerceSteps jsRound
  rw [if_neg (by norm_num)]
  have h : ⌊(2 + 1/2 : Rat)⌋ = 2 := by
    rw [Int.floor_eq_iff]
    norm_num
  rw [h]
  omega

theorem coerceSteps_nonpos {q : Rat} (hq : q ≤ 0) : coerceSteps q = 1 := by
  unfold coerceSteps jsRound
  by_cases h0 : q = 0
  · rw [if_pos h0]
    have h : ⌊(1 + 1/2 : Rat)⌋ = 1 := by
      rw [Int.floor_eq_iff]
      norm_num
    rw [h]
    omega
  · rw [if_neg h0]
    have h : ⌊q + 1/2⌋ ≤ 0 := by
      rw [Int.floor_le_iff]
      push_cast
      linarith
    omega

theorem coerceSteps_near {q : Rat} (hq : 1 ≤ q) :
    q - 1/2 ≤ (coerceSteps q : Rat) ∧ (coerceSteps q : Rat) ≤ q + 1/2 := by
  have h0 : ¬ q = 0 := by
    intro h
    rw [h] at hq
    norm_num at hq
  unfold coerceSteps jsRound
  rw [if_neg h0]
  have h1 : (1 : Int) ≤ ⌊q + 1/2⌋ := by
    rw [Int.le_floor]
    push_cast
    linarith
  rw [max_eq_right h1]
  constructor
  · have := Int.lt_floor_add_one (q + 1/2)
    linarith
  · have := Int.floor_le (q + 1/2)
    linarith

/-- C1 counterexample: the claim fails as stated.  Editing the goal
`gFull` (steps 5, completedSteps 5) down to a steps input of 2 and saving
leaves a goal whose `completedSteps` (5) exceeds its `steps` (2), so not
every goal satisfies `0 ≤ completedSteps ≤ steps` after the edit
mutation. -/
theorem C1_counterexample :
    (handleSave (submitGoal (fun s => s) "f" 1 (some gFull) "t" "" "d" Priority.medium 2)
        [gFull]).all (fun g => decide (stepsInv g)) = false := by
  simp [handleSave, submitGoal, replaceById, stepsInv, gFull, coerceSteps_two]

/-- C1 (amended): every mutation other than edit preserves
`0 ≤ completedSteps ≤ steps` for every goal in the repository (for undo,
provided the remembered record satisfied it); creation establishes it;
the edit operation still preserves `0 ≤ completedSteps` (it copies the
counter unchanged) but may leave `completedSteps > steps`. -/
theorem C1_theorem
    (toIso : String → String) (freshId : String) (now : Int)
    (title descr dl : String) (p : Priority) (st : Rat)
    (prev : List Goal) (target : Goal) (s : AppState)
    (hprev : ∀ x ∈ prev, stepsInv x)
    (htarget : stepsInv target)
    (hs : ∀ x ∈ s.goals, stepsInv x)
    (hlast : ∀ l, s.lastToggled = some l → stepsInv l) :
    stepsInv (submitGoal toIso freshId now none title descr dl p st) ∧
    (∀ x ∈ handleSave (submitGoal toIso freshId now none title descr dl p st) prev,
      stepsInv x) ∧
    (∀ x ∈ handleIncrementStep target prev, stepsInv x) ∧
    (∀ x ∈ handleDecrementStep target prev, stepsInv x) ∧
    (∀ x ∈ (handleToggleComplete s target now).goals, stepsInv x) ∧
    (∀ x ∈ (handleUndo s).goals, stepsInv x) ∧
    0 ≤ (submitGoal toIso freshId now (some target) title descr dl p st).completedSteps := by
  have hnew : stepsInv (submitGoal toIso freshId now none title descr dl p st) := by
    refine ⟨by simp [submitGoal], ?_⟩
    simp only [submitGoal]
    have := coerceSteps_ge_one st
    omega
  refine ⟨hnew, ?_, ?_, ?_, ?_, ?_, ?_⟩
  · intro x hx
    unfold handleSave at hx
    split at hx
    · rcases mem_replaceById hx with h | h
      · exact h ▸ hnew
      · exact hprev x h
    · rcases List.mem_cons.1 hx with h | h
      · exact h ▸ hnew
      · exact hprev x h
  · intro x hx
    unfold handleIncrementStep at hx
    split at hx
    · exact hprev x hx
    · split at hx
      · exact hprev x hx
      · rcases mem_replaceById hx with h | h
        · subst h
          obtain ⟨h1, h2⟩ := htarget
          refine ⟨?_, ?_⟩ <;> simp only [] <;> omega
        · exact hprev x h
  · intro x hx
    unfold handleDecrementStep at hx
    split at hx
    · exact hprev x hx
    · split at hx
      · exact hprev x hx
      · rcases mem_replaceById hx with h | h
        · subst h
          obtain ⟨h1, h2⟩ := htarget
          refine ⟨?_, ?_⟩ <;> simp only [] <;> omega
        · exact hprev x h
  · intro x hx
    unfold handleToggleComplete at hx
    rcases mem_replaceById hx with h | h
    · subst h
      obtain ⟨h1, h2⟩ := htarget
      exact ⟨by simpa [toggleGoal] using h1, by simpa [toggleGoal] using h2⟩
    · exact hs x h
  · intro x hx
    unfold handleUndo at hx
    rcases heq : s.lastToggled with _ | l
    · rw [heq] at hx
      exact hs x hx
    · rw [heq] at hx
      simp only [] at hx
      rcases mem_replaceById hx with h | h
      · exact h ▸ hlast l heq
      · exact hs x h
  · simp only [submitGoal]
    exact htarget.1

/-- C1 witness: the amended invariant-preservation theorem instantiated at
a concrete repository and state. -/
theorem C1_witness :
    (∀ x ∈ [gPend], stepsInv x) ∧ stepsInv gPend ∧ (∀ x ∈ s0.goals, stepsInv x) ∧
    (∀ l, s0.lastToggled = some l → stepsInv l) ∧
    (stepsInv (submitGoal (fun s => s) "f" 0 none "t" "" "d" Priority.medium 2) ∧
     (∀ x ∈ handleSave (submitGoal (fun s => s) "f" 0 none "t" "" "d" Priority.medium 2) [gPend],
       stepsInv x) ∧
     (∀ x ∈ handleIncrementStep gPend [gPend], stepsInv x) ∧
     (∀ x ∈ handleDecrementStep gPend [gPend], stepsInv x) ∧
     (∀ x ∈ (handleToggleComplete s0 gPend 0).goals, stepsInv x) ∧
     (∀ x ∈ (handleUndo s0).goals, stepsInv x) ∧
     0 ≤ (submitGoal (fun s => s) "f" 0 (some gPend) "t" "" "d" Priority.medium 2).completedSteps) :=
  by
  have hlast : ∀ l, s0.lastToggled = some l → stepsInv l := fun l h => nomatch h
  exact ⟨by decide, by decide, by decide, hlast,
    C1_theorem (fun s => s) "f" 0 "t" "" "d" Priority.medium 2 [gPend] gPend s0
      (by decide) (by decide) (by decide) hlast⟩

/-- C2 counterexample: the claim fails as stated.  Submitting an edit of
`gPend` (a goal with a nonempty id, so the form is in editing mode) into a
repository that does not contain that id is not a no-op: the edited goal
is prepended, leaving the repository nonempty. -/
theorem C2_counterexample :
    gPend.id ≠ "" ∧
    handleSave (submitGoal (fun s => s) "f" 1 (some gPend) "t" "" "d" Priority.medium 2) [] ≠
      [] := by
  constructor
  · decide
  · simp [handleSave]

/-- C2 (amended): the update (edit) operation looks up by id and replaces
the matching record in place with the edited fields, preserving id and
createdAt; if no goal with that id exists, the goal is prepended to the
front of the list (the operation behaves like a create) rather than being
a no-op. -/
theorem C2_theorem (toIso : String → String) (freshId : String) (now : Int)
    (g : Goal) (title descr dl : String) (p : Priority) (st : Rat)
    (prev : List Goal) (hid : g.id ≠ "") :
    (submitGoal toIso freshId now (some g) title descr dl p st).id = g.id ∧
    (submitGoal toIso freshId now (some g) title descr dl p st).createdAt = g.createdAt ∧
    (prev.any (fun x => decide (x.id = g.id)) = true →
      handleSave (submitGoal toIso freshId now (some g) title descr dl p st) prev =
        replaceById g.id (submitGoal toIso freshId now (some g) title descr dl p st) prev) ∧
    (prev.any (fun x => decide (x.id = g.id)) = false →
      handleSave (submitGoal toIso freshId now (some g) title descr dl p st) prev =
        submitGoal toIso freshId now (some g) title descr dl p st :: prev) := by
  have hidq : (submitGoal toIso freshId now (some g) title descr dl p st).id = g.id := by
    simp [submitGoal, hid]
  have hcr : (submitGoal toIso freshId now (some g) title descr dl p st).createdAt =
      g.createdAt := by
    simp [submitGoal, hid]
  refine ⟨hidq, hcr, ?_, ?_⟩ <;> intro h <;> unfold handleSave <;> rw [hidq] <;> simp [h]

/-- C2 witness: the amended update theorem instantiated at a concrete
repository containing the edited id. -/
theorem C2_witness :
    gPend.id ≠ "" ∧
    ((submitGoal (fun s => s) "f" 9 (some gPend) "t" "" "d" Priority.medium 2).id = gPend.id ∧
     (submitGoal (fun s => s) "f" 9 (some gPend) "t" "" "d" Priority.medium 2).createdAt =
       gPend.createdAt ∧
     ([gPend].any (fun x => decide (x.id = gPend.id)) = true →
       handleSave (submitGoal (fun s => s) "f" 9 (some gPend) "t" "" "d" Priority.medium 2)
           [gPend] =
         replaceById gPend.id
           (submitGoal (fun s => s) "f" 9 (some gPend) "t" "" "d" Priority.medium 2) [gPend]) ∧
     ([gPend].any (fun x => decide (x.id = gPend.id)) = false →
       handleSave (submitGoal (fun s => s) "f" 9 (some gPend) "t" "" "d" Priority.medium 2)
           [gPend] =
         submitGoal (fun s => s) "f" 9 (some gPend) "t" "" "d" Priority.medium 2 :: [gPend])) :=
  ⟨by decide, C2_theorem (fun s => s) "f" 9 gPend "t" "" "d" Priority.medium 2 [gPend] (by decide)⟩

/-- C3 counterexample: the claim fails as stated.  After toggling `gPend`
and letting the 5-second countdown fire, the remembered prior state is
not discarded (`lastToggled` is still set), and invoking the undo handler
changes the repository (it restores the pre-toggle record), so the undo
invocation is not a no-op on the repository. -/
theorem C3_counterexample :
    (undoTimerFire (handleToggleComplete s0 gPend 100)).lastToggled ≠ none ∧
    (handleUndo (undoTimerFire (handleToggleComplete s0 gPend 100))).goals ≠
      (undoTimerFire (handleToggleComplete s0 gPend 100)).goals := by
  constructor
  · simp [undoTimerFire, handleToggleComplete]
  · simp [undoTimerFire, handleToggleComplete, handleUndo, replaceById, toggleGoal, s0, gPend]

/-- C3 (amended): letting the 5-second countdown lapse only dismisses the
undo toast; the remembered prior state and the repository are unchanged.
Because the undo affordance is rendered only while the toast is open,
invoking undo through the UI after the window has expired is a no-op on
the whole state; the remembered state, however, is retained rather than
discarded, so a direct invocation of the undo handler would still restore
it. -/
theorem C3_theorem (s : AppState) :
    (undoTimerFire s).undoOpen = false ∧
    (undoTimerFire s).goals = s.goals ∧
    (undoTimerFire s).lastToggled = s.lastToggled ∧
    uiUndo (undoTimerFire s) = undoTimerFire s := by
  refine ⟨rfl, rfl, rfl, ?_⟩
  simp [uiUndo, undoTimerFire]

/-- C4: invoking undo before the countdown expires restores the exact
pre-toggle record (every field, including the prior completedAt): when
every repository record carrying the toggled id is the pre-toggle record
`g`, toggling and then undoing returns the repository to its exact prior
value, closes the toast, cancels the pending timer and clears the slot;
and re-toggling replaces the single remembered undo target. -/
theorem C4_theorem (s : AppState) (g g2 : Goal) (now now2 : Int)
    (hmem : ∀ x ∈ s.goals, x.id = g.id → x = g) :
    (handleUndo (handleToggleComplete s g now)).goals = s.goals ∧
    (handleUndo (handleToggleComplete s g now)).undoOpen = false ∧
    (handleUndo (handleToggleComplete s g now)).timerArmed = false ∧
    (handleUndo (handleToggleComplete s g now)).lastToggled = none ∧
    (handleToggleComplete (handleToggleComplete s g now) g2 now2).lastToggled = some g2 := by
  have hgoals : (handleUndo (handleToggleComplete s g now)).goals = s.goals := by
    show replaceById g.id g (replaceById g.id (toggleGoal g now) s.goals) = s.goals
    unfold replaceById
    rw [List.map_map]
    apply map_id_of_mem
    intro x hx
    by_cases hxid : x.id = g.id
    · simp only [Function.comp_apply, if_pos hxid]
      have htid : (toggleGoal g now).id = g.id := rfl
      rw [if_pos htid]
      exact (hmem x hx hxid).symm
    · simp only [Function.comp_apply, if_neg hxid]
  exact ⟨hgoals, rfl, rfl, rfl, rfl⟩

/-- C4 witness: toggle-then-undo on a concrete single-goal state. -/
theorem C4_witness :
    (∀ x ∈ s0.goals, x.id = gPend.id → x = gPend) ∧
    ((handleUndo (handleToggleComplete s0 gPend 5)).goals = s0.goals ∧
     (handleUndo (handleToggleComplete s0 gPend 5)).undoOpen = false ∧
     (handleUndo (handleToggleComplete s0 gPend 5)).timerArmed = false ∧
     (handleUndo (handleToggleComplete s0 gPend 5)).lastToggled = none ∧
     (handleToggleComplete (handleToggleComplete s0 gPend 5) gDone 6).lastToggled =
       some gDone) :=
  ⟨by decide, C4_theorem s0 gPend gDone 5 6 (by decide)⟩

/-- C5: toggling completion flips the completed flag; on the false-to-true
transition completedAt is set to the current time, on the true-to-false
transition it is cleared; and the repository operation replaces exactly
the record with the toggled id by this updated record. -/
theorem C5_theorem (s : AppState) (g : Goal) (now : Int) :
    (toggleGoal g now).completed = !g.completed ∧
    (toggleGoal g now).completedAt = (if g.completed then none else some now) ∧
    (handleToggleComplete s g now).goals = replaceById g.id (toggleGoal g now) s.goals := by
  refine ⟨rfl, ?_, rfl⟩
  by_cases h : g.completed <;> simp [toggleGoal, h]

/-- C6 counterexample: the claim fails as stated.  For the goal `gBad`
(not completed, completedSteps 2, steps 1 — a state reachable by editing
steps below the preserved counter) the claim requires increment to
increase completedSteps by 1, since completedSteps does not equal steps;
the code is a no-op because its guard is the inequality
`completedSteps >= steps`, not equality. -/
theorem C6_counterexample :
    gBad.completed = false ∧
    gBad.completedSteps ≠ gBad.steps ∧
    handleIncrementStep gBad [gBad] = [gBad] ∧
    [gBad] ≠ [{ gBad with completedSteps := gBad.completedSteps + 1 }] := by
  refine ⟨rfl, by decide, ?_, by decide⟩
  decide

/-- C6 (amended): increment is a no-op when the goal is completed or when
`completedSteps >= steps`, and otherwise replaces the record with the
counter increased by exactly 1; decrement is a no-op when the goal is
completed or when `completedSteps <= 0`, and otherwise replaces the
record with the counter decreased by exactly 1. -/
theorem C6_theorem (g : Goal) (prev : List Goal) :
    (g.completed = true →
      handleIncrementStep g prev = prev ∧ handleDecrementStep g prev = prev) ∧
    (g.completed = false → g.steps ≤ g.completedSteps →
      handleIncrementStep g prev = prev) ∧
    (g.completed = false → g.completedSteps < g.steps →
      handleIncrementStep g prev =
        replaceById g.id { g with completedSteps := g.completedSteps + 1 } prev) ∧
    (g.completed = false → g.completedSteps ≤ 0 →
      handleDecrementStep g prev = prev) ∧
    (g.completed = false → 0 < g.completedSteps →
      handleDecrementStep g prev =
        replaceById g.id { g with completedSteps := g.completedSteps - 1 } prev) := by
  refine ⟨?_, ?_, ?_, ?_, ?_⟩
  · intro hc
    constructor <;> simp [handleIncrementStep, handleDecrementStep, hc]
  · intro hc hle
    unfold handleIncrementStep
    rw [if_neg (by simp [hc]), if_pos hle]
  · intro hc hlt
    unfold handleIncrementStep
    rw [if_neg (by simp [hc]), if_neg (by omega)]
  · intro hc hle
    unfold handleDecrementStep
    rw [if_neg (by simp [hc]), if_pos hle]
  · intro hc hpos
    unfold handleDecrementStep
    rw [if_neg (by simp [hc]), if_neg (by omega)]

/-- C6 witness: the amended step theorem instantiated at a concrete goal
and repository. -/
theorem C6_witness :
    (gPend.completed = true →
      handleIncrementStep gPend [gPend] = [gPend] ∧
      handleDecrementStep gPend [gPend] = [gPend]) ∧
    (gPend.completed = false → gPend.steps ≤ gPend.completedSteps →
      handleIncrementStep gPend [gPend] = [gPend]) ∧
    (gPend.completed = false → gPend.completedSteps < gPend.steps →
      handleIncrementStep gPend [gPend] =
        replaceById gPend.id { gPend with completedSteps := gPend.completedSteps + 1 } [gPend]) ∧
    (gPend.completed = false → gPend.completedSteps ≤ 0 →
      handleDecrementStep gPend [gPend] = [gPend]) ∧
    (gPend.completed = false → 0 < gPend.completedSteps →
      handleDecrementStep gPend [gPend] =
        replaceById gPend.id { gPend with completedSteps := gPend.completedSteps - 1 } [gPend]) :=
  C6_theorem gPend [gPend]

/-- C7: creation assigns the fresh id and createdAt = now, starts with
completedSteps 0, completed false and no completedAt, coerces the steps
input to an integer that is at least 1 (inputs at most 0 are stored as 1;
inputs at least 1 are rounded to within one half), and, the fresh id
being absent from the repository, prepends the new goal to the front. -/
theorem C7_theorem (toIso : String → String) (freshId : String) (now : Int)
    (title descr dl : String) (p : Priority) (st : Rat) (prev : List Goal)
    (hfresh : ∀ x ∈ prev, x.id ≠ freshId) :
    (submitGoal toIso freshId now none title descr dl p st).id = freshId ∧
    (submitGoal toIso freshId now none title descr dl p st).createdAt = now ∧
    (submitGoal toIso freshId now none title descr dl p st).completedSteps = 0 ∧
    (submitGoal toIso freshId now none title descr dl p st).completed = false ∧
    (submitGoal toIso freshId now none title descr dl p st).completedAt = none ∧
    1 ≤ (submitGoal toIso freshId now none title descr dl p st).steps ∧
    (st ≤ 0 → (submitGoal toIso freshId now none title descr dl p st).steps = 1) ∧
    (1 ≤ st →
      st - 1/2 ≤ ((submitGoal toIso freshId now none title descr dl p st).steps : Rat) ∧
      ((submitGoal toIso freshId now none title descr dl p st).steps : Rat) ≤ st + 1/2) ∧
    handleSave (submitGoal toIso freshId now none title descr dl p st) prev =
      submitGoal toIso freshId now none title descr dl p st :: prev := by
  have hsteps : (submitGoal toIso freshId now none title descr dl p st).steps =
      coerceSteps st := rfl
  have hany : prev.any (fun x =>
      decide (x.id = (submitGoal toIso freshId now none title descr dl p st).id)) = false := by
    rw [List.any_eq_false]
    intro x hx
    simpa [submitGoal] using hfresh x hx
  refine ⟨rfl, rfl, rfl, rfl, rfl, ?_, ?_, ?_, ?_⟩
  · rw [hsteps]
    exact coerceSteps_ge_one st
  · intro h
    rw [hsteps]
    exact coerceSteps_nonpos h
  · intro h
    rw [hsteps]
    exact coerceSteps_near h
  · unfold handleSave
    rw [hany]
    simp

/-- C7 witness: creation instantiated at a concrete form input and
repository. -/
theorem C7_witness :
    (∀ x ∈ [gPend], x.id ≠ "f") ∧
    ((submitGoal (fun s => s) "f" 3 none "t" "" "d" Priority.medium 2).id = "f" ∧
     (submitGoal (fun s => s) "f" 3 none "t" "" "d" Priority.medium 2).createdAt = 3 ∧
     (submitGoal (fun s => s) "f" 3 none "t" "" "d" Priority.medium 2).completedSteps = 0 ∧
     (submitGoal (fun s => s) "f" 3 none "t" "" "d" Priority.medium 2).completed = false ∧
     (submitGoal (fun s => s) "f" 3 none "t" "" "d" Priority.medium 2).completedAt = none ∧
     1 ≤ (submitGoal (fun s => s) "f" 3 none "t" "" "d" Priority.medium 2).steps ∧
     ((2 : Rat) ≤ 0 →
       (submitGoal (fun s => s) "f" 3 none "t" "" "d" Priority.medium 2).steps = 1) ∧
     ((1 : Rat) ≤ 2 →
       (2 : Rat) - 1/2 ≤
         ((submitGoal (fun s => s) "f" 3 none "t" "" "d" Priority.medium 2).steps : Rat) ∧
       ((submitGoal (fun s => s) "f" 3 none "t" "" "d" Priority.medium 2).steps : Rat) ≤
         (2 : Rat) + 1/2) ∧
     handleSave (submitGoal (fun s => s) "f" 3 none "t" "" "d" Priority.medium 2) [gPend] =
       submitGoal (fun s => s) "f" 3 none "t" "" "d" Priority.medium 2 :: [gPend]) :=
  ⟨by decide, C7_theorem (fun s => s) "f" 3 "t" "" "d" Priority.medium 2 [gPend] (by decide)⟩

/-- C8: load returns the empty list whenever the storage key is absent,
the stored content fails to parse as JSON, or the parsed value is not an
array; otherwise it returns the parsed goal list.  (The function is
total, so no error ever reaches the caller.) -/
theorem C8_theorem (parse : String → Option JsValue) (s : String) (xs : List Goal)
    (hempty : parse "" = none) :
    loadGoals parse none = [] ∧
    (parse s = none → loadGoals parse (some s) = []) ∧
    (parse s = some JsValue.notArray → loadGoals parse (some s) = []) ∧
    (parse s = some (JsValue.arr xs) → loadGoals parse (some s) = xs) := by
  refine ⟨rfl, ?_, ?_, ?_⟩
  · intro h
    by_cases hs : s = ""
    · simp [loadGoals, hs]
    · simp [loadGoals, hs, h]
  · intro h
    by_cases hs : s = ""
    · simp [loadGoals, hs]
    · simp [loadGoals, hs, h]
  · intro h
    by_cases hs : s = ""
    · rw [hs] at h
      rw [hempty] at h
      exact Option.noConfusion h
    · simp [loadGoals, hs, h]

/-- C8 witness: the load contract instantiated at a concrete parse
function and stored string. -/
theorem C8_witness :
    parseW "" = none ∧
    (loadGoals parseW none = [] ∧
     (parseW "[]" = none → loadGoals parseW (some "[]") = []) ∧
     (parseW "[]" = some JsValue.notArray → loadGoals parseW (some "[]") = []) ∧
     (parseW "[]" = some (JsValue.arr []) → loadGoals parseW (some "[]") = [])) :=
  ⟨by simp [parseW], C8_theorem parseW "[]" [] (by simp [parseW])⟩

/-- C9: the derived view with filter completed and sort priority-desc is a
permutation of the completed goals of the source list (the source is not
mutated; the view is a fresh list built from a copy), it is ordered by
descending priority rank (High before Medium before Low), and every goal
in it is completed. -/
theorem C9_theorem (parseTime : String → Int) (goals : List Goal) (g : Goal)
    (hg : g ∈ filteredGoals parseTime goals FilterKey.completed SortKey.priorityDesc) :
    (filteredGoals parseTime goals FilterKey.completed SortKey.priorityDesc).Perm
      (goals.filter fun x => x.completed) ∧
    (filteredGoals parseTime goals FilterKey.completed SortKey.priorityDesc).Pairwise
      (fun a b => priorityOrder b.priority ≤ priorityOrder a.priority) ∧
    g.completed = true := by
  have hdef : filteredGoals parseTime goals FilterKey.completed SortKey.priorityDesc =
      (goals.filter fun x => x.completed).mergeSort
        (fun a b => decide (priorityOrder b.priority ≤ priorityOrder a.priority)) := by
    simp [filteredGoals]
  refine ⟨?_, ?_, ?_⟩
  · rw [hdef]
    exact List.mergeSort_perm _ _
  · rw [hdef]
    refine List.Pairwise.imp (fun hab => of_decide_eq_true hab)
      (List.sorted_mergeSort ?_ ?_ (goals.filter fun x => x.completed))
    · intro a b c hab hbc
      have h1 := of_decide_eq_true hab
      have h2 := of_decide_eq_true hbc
      exact decide_eq_true (Nat.le_trans h2 h1)
    · intro a b
      simpa using Nat.le_total (priorityOrder b.priority) (priorityOrder a.priority)
  · rw [hdef] at hg
    exact List.of_mem_filter (List.mem_mergeSort.1 hg)

/-- C9 witness: the derived-view theorem instantiated at a concrete goal
list containing one completed and one pending goal. -/
theorem C9_witness :
    gDone ∈ filteredGoals (fun _ => 0) [gPend, gDone] FilterKey.completed SortKey.priorityDesc ∧
    ((filteredGoals (fun _ => 0) [gPend, gDone] FilterKey.completed
        SortKey.priorityDesc).Perm ([gPend, gDone].filter fun x => x.completed) ∧
     (filteredGoals (fun _ => 0) [gPend, gDone] FilterKey.completed
        SortKey.priorityDesc).Pairwise
       (fun a b => priorityOrder b.priority ≤ priorityOrder a.priority) ∧
     gDone.completed = true) :=
  ⟨by simp [filteredGoals, gPend, gDone],
   C9_theorem (fun _ => 0) [gPend, gDone] gDone (by simp [filteredGoals, gPend, gDone])⟩

/-- C10: every by-id mutation (update with an existing id, increment,
decrement, toggle, undo with an armed slot) keeps the repository length
and leaves every position holding a record with a different id unchanged
(hence the relative order of all records is preserved); delete yields a
sublist of the previous repository, preserving the relative order of the
remaining records. -/
theorem C10_theorem (prev : List Goal) (e target last : Goal) (s : AppState) (now : Int)
    (hlast : s.lastToggled = some last)
    (hex : prev.any (fun x => decide (x.id = e.id)) = true) :
    framedUpdate e.id prev (handleSave e prev) ∧
    framedUpdate target.id prev (handleIncrementStep target prev) ∧
    framedUpdate target.id prev (handleDecrementStep target prev) ∧
    framedUpdate target.id s.goals (handleToggleComplete s target now).goals ∧
    framedUpdate last.id s.goals (handleUndo s).goals ∧
    (handleDelete target true prev).Sublist prev := by
  refine ⟨?_, ?_, ?_, ?_, ?_, ?_⟩
  · unfold handleSave
    rw [if_pos hex]
    exact framedUpdate_replaceById _ _ _
  · unfold handleIncrementStep
    split
    · exact framedUpdate_refl _ _
    · split
      · exact framedUpdate_refl _ _
      · exact framedUpdate_replaceById _ _ _
  · unfold handleDecrementStep
    split
    · exact framedUpdate_refl _ _
    · split
      · exact framedUpdate_refl _ _
      · exact framedUpdate_replaceById _ _ _
  · exact framedUpdate_replaceById _ _ _
  · unfold handleUndo
    rw [hlast]
    exact framedUpdate_replaceById _ _ _
  · unfold handleDelete
    exact List.filter_sublist _

/-- C10 witness: the frame theorem instantiated at a concrete repository
and a state with an armed undo slot. -/
theorem C10_witness :
    s1.lastToggled = some gPend ∧
    [gPend, gDone].any (fun x => decide (x.id = gPend.id)) = true ∧
    (framedUpdate gPend.id [gPend, gDone] (handleSave gPend [gPend, gDone]) ∧
     framedUpdate gDone.id [gPend, gDone] (handleIncrementStep gDone [gPend, gDone]) ∧
     framedUpdate gDone.id [gPend, gDone] (handleDecrementStep gDone [gPend, gDone]) ∧
     framedUpdate gDone.id s1.goals (handleToggleComplete s1 gDone 7).goals ∧
     framedUpdate gPend.id s1.goals (handleUndo s1).goals ∧
     (handleDelete gDone true [gPend, gDone]).Sublist [gPend, gDone]) :=
  ⟨by decide, by decide,
   C10_theorem [gPend, gDone] gPend gDone gPend s1 7 (by decide) (by decide)⟩
